import Mathlib

/-!
Verification of the candidate-scoring and selection pipeline of
`ai-sports-autobet` (`src/main.py`).

The Python values flowing through the pipeline (nested JSON-like records)
are modelled by the inductive type `Value`; Python decimal odds and
probabilities are modelled by exact rationals `ℚ` except where the code is
genuinely transcendental (`value_score` uses `np.exp`), where `ℝ` is used.
Python exceptions are modelled with `Except PyErr`.
-/

set_option autoImplicit false

namespace AutoBet

/-- A Python-style runtime error. The pipeline can hit `TypeError` (`in`
on a non-container, `float()` of a list/dict), `ValueError` (`float()`
of a non-numeric string), `OverflowError` (`float()` of an integer
beyond double range) and `ZeroDivisionError` (`0.0/0.0` when the
moneyline weights of infinite odds sum to zero). -/
inductive PyErr where
  | typeError
  | valueError
  | overflowError
  | zeroDivisionError
  deriving DecidableEq

/-- A Python float as produced by `float(...)`: a finite value (kept
exact as a rational) or one of the non-finite specials. -/
inductive PyFloat where
  | fin : ℚ → PyFloat
  | inf : PyFloat
  | ninf : PyFloat
  | nan : PyFloat
  deriving DecidableEq

/-- JSON-like Python values handled by the pipeline: `None`, booleans,
numbers (modelled as exact rationals), strings, lists and string-keyed
dicts. -/
inductive Value where
  | none : Value
  | bool : Bool → Value
  | num : ℚ → Value
  | str : String → Value
  | list : List Value → Value
  | dict : List (String × Value) → Value

/-- One step of a `safe_get` path: a mapping key or a sequence index
(Python ints may be negative, hence `ℤ`). -/
inductive PathStep where
  | key : String → PathStep
  | idx : ℤ → PathStep

/-- Embedding of `safe_get` (src/main.py lines 92-105): walk the path,
indexing lists by in-bounds nonnegative indices and dicts by present keys;
any mismatch returns the caller-supplied default. The Python loop over
`path` becomes structural recursion on the path. -/
def safe_get (cur : Value) (path : List PathStep) (default : Value) : Value :=
  match path with
  | [] => cur
  | PathStep.idx i :: rest =>
    match cur with
    | Value.list xs =>
      if 0 ≤ i ∧ i < (xs.length : ℤ) then
        match xs.get? i.toNat with
        | some v => safe_get v rest default
        | Option.none => default
      else default
    | _ => default
  | PathStep.key k :: rest =>
    match cur with
    | Value.dict kvs =>
      match kvs.lookup k with
      | some v => safe_get v rest default
      | Option.none => default
    | _ => default

/-- Modelled from the spec (§4.1 contract): the clean partial path
resolution that `safe_get` is claimed to refine — `some` of the value at
the path when every step matches, `none` otherwise. -/
def getPath (cur : Value) (path : List PathStep) : Option Value :=
  match path with
  | [] => some cur
  | PathStep.idx i :: rest =>
    match cur with
    | Value.list xs =>
      if 0 ≤ i ∧ i < (xs.length : ℤ) then
        match xs.get? i.toNat with
        | some v => getPath v rest
        | Option.none => Option.none
      else Option.none
    | _ => Option.none
  | PathStep.key k :: rest =>
    match cur with
    | Value.dict kvs =>
      match kvs.lookup k with
      | some v => getPath v rest
      | Option.none => Option.none
    | _ => Option.none

/-- The raw weight a side contributes in `compute_moneyline_probs`
(src/main.py lines 111-114): `1/odds` when the odds are truthy and
`> 1.0` (truthiness is implied by `1 < v`), otherwise no weight. -/
def oddsWeight (o : Option ℚ) : Option ℚ :=
  match o with
  | some v => if 1 < v then some (1 / v) else Option.none
  | Option.none => Option.none

/-- Embedding of `compute_moneyline_probs` (src/main.py lines 108-122) as a
pair (home probability, away probability). The four cases mirror the
source: with no valid weight the initial `{0.5, 0.5}` survives; otherwise
the present weights are normalized by their sum (`v / s`), and a side
missing from the normalized dict is filled with `1 -` the other side's
normalized value. In the single-sided cases the normalized value is the
literal `h / h` (resp. `a / a`) of the source's `v / s`. -/
def compute_moneyline_probs (odds_home odds_away : Option ℚ) : ℚ × ℚ :=
  match oddsWeight odds_home, oddsWeight odds_away with
  | some h, some a => (h / (h + a), a / (h + a))
  | some h, Option.none => (h / h, 1 - h / h)
  | Option.none, some a => (1 - a / a, a / a)
  | Option.none, Option.none => (1/2, 1/2)

/-- Whether an optional odds value carries usable signal for
`compute_moneyline_probs`: present, truthy and strictly above 1.0. -/
def usable (o : Option ℚ) : Bool :=
  match o with
  | some v => decide (1 < v)
  | Option.none => false

/-- Python truthiness of a `Value` (`if odds_home`, `a or b`, ...). -/
def pyTruthy : Value → Bool
  | Value.none => false
  | Value.bool b => b
  | Value.num q => decide (q ≠ 0)
  | Value.str s => decide (s ≠ "")
  | Value.list xs => !xs.isEmpty
  | Value.dict kvs => !kvs.isEmpty

/-- Digits to a natural number, most significant first. -/
def digitsToNat (cs : List Char) : ℕ :=
  cs.foldl (fun n c => 10 * n + (c.toNat - '0'.toNat)) 0

/-- Tail of a digit group: digits with single underscores allowed only
between digits (Python numeric-literal grouping: `1_000` is valid,
`1__0`, `1_` and `_1` are not). -/
def digitsTail : List Char → Bool
  | [] => true
  | '_' :: c :: rest => c.isDigit && digitsTail rest
  | c :: rest => c.isDigit && digitsTail rest

/-- A valid, nonempty digit group (underscore grouping allowed). -/
def groupOk : List Char → Bool
  | [] => false
  | c :: rest => c.isDigit && digitsTail rest

/-- Drop the underscore separators of a digit group. -/
def stripU (cs : List Char) : List Char :=
  cs.filter fun c => !(c == '_')

/-- The unsigned mantissa of a Python float literal: digits, optionally
followed by `.` and an optional fraction group (`1`, `1.`, `.5`, `1.5`,
with underscore grouping), evaluated exactly as a rational. -/
def parseMantissa (cs : List Char) : Option ℚ :=
  let ip := cs.takeWhile fun c => c.isDigit || c == '_'
  let rest := cs.dropWhile fun c => c.isDigit || c == '_'
  match rest with
  | [] => if groupOk ip then some ((digitsToNat (stripU ip) : ℚ)) else Option.none
  | '.' :: frac =>
    if frac.isEmpty then
      if groupOk ip then some ((digitsToNat (stripU ip) : ℚ)) else Option.none
    else if groupOk frac then
      if ip.isEmpty then
        some ((digitsToNat (stripU frac) : ℚ) / 10 ^ (stripU frac).length)
      else if groupOk ip then
        some ((digitsToNat (stripU ip) : ℚ) + (digitsToNat (stripU frac) : ℚ) / 10 ^ (stripU frac).length)
      else Option.none
    else Option.none
  | _ => Option.none

/-- The smallest magnitude at which `strtod`/CPython rounds a decimal
literal up to infinity (the midpoint above the largest finite double,
`2^1024 - 2^970`); the same bound governs int-to-float `OverflowError`. -/
def overflowBound : ℚ := 2 ^ 1024 - 2 ^ 970

/-- Classify an exactly-computed literal value as a Python float:
overflowing magnitudes become the corresponding infinity. -/
def toPyFloat (q : ℚ) : PyFloat :=
  if overflowBound ≤ q then PyFloat.inf
  else if q ≤ -overflowBound then PyFloat.ninf
  else PyFloat.fin q

/-- Model of Python `float(s)` on strings: surrounding whitespace is
ignored; an optional sign precedes either `inf`/`infinity`/`nan`
(case-insensitive) or a decimal literal with optional fraction and
exponent (underscore grouping allowed); overflowing values yield the
infinities, anything else fails (`ValueError`). Finite values are kept
exact (double rounding of in-range values is not modelled; no claim
depends on it). -/
def parsePyFloat (s : String) : Option PyFloat :=
  let cs := ((s.toList.dropWhile Char.isWhitespace).reverse.dropWhile Char.isWhitespace).reverse
  let signed : Bool × List Char :=
    match cs with
    | '-' :: t => (true, t)
    | '+' :: t => (false, t)
    | _ => (false, cs)
  let neg := signed.1
  let lower := signed.2.map Char.toLower
  if lower = "inf".toList ∨ lower = "infinity".toList then
    some (if neg then PyFloat.ninf else PyFloat.inf)
  else if lower = "nan".toList then some PyFloat.nan
  else
    let mant := signed.2.takeWhile fun c => !(c == 'e') && !(c == 'E')
    let erest := signed.2.dropWhile fun c => !(c == 'e') && !(c == 'E')
    match parseMantissa mant with
    | Option.none => Option.none
    | some m =>
      let sm : ℚ := if neg then -m else m
      match erest with
      | [] => some (toPyFloat sm)
      | _ :: etail =>
        let esigned : Bool × List Char :=
          match etail with
          | '-' :: t => (true, t)
          | '+' :: t => (false, t)
          | _ => (false, etail)
        if groupOk esigned.2 then
          let e := digitsToNat (stripU esigned.2)
          some (toPyFloat (if esigned.1 then sm / 10 ^ e else sm * 10 ^ e))
        else Option.none

/-- Model of `float(x) if x else None` on a raw odds `Value`: falsy
values give `None`; numeric strings parse per `parsePyFloat` (failures
raise `ValueError`); numbers coerce to themselves, except magnitudes
beyond double range, which can only be Python ints and raise
`OverflowError` (a `Value.num` within double range is exact); `True`
coerces to 1.0; truthy lists/dicts raise `TypeError`. -/
def pyFloatOpt (v : Value) : Except PyErr (Option PyFloat) :=
  if pyTruthy v then
    match v with
    | Value.num q =>
      if overflowBound ≤ q ∨ q ≤ -overflowBound then Except.error PyErr.overflowError
      else Except.ok (some (PyFloat.fin q))
    | Value.bool _ => Except.ok (some (PyFloat.fin 1))
    | Value.str s =>
      match parsePyFloat s with
      | some f => Except.ok (some f)
      | Option.none => Except.error PyErr.valueError
    | _ => Except.error PyErr.typeError
  else Except.ok Option.none

/-- The odds-coercion `try` block (src/main.py lines 143-147): both raw
odds are coerced; if either coercion raises, the `except` arm sets both
to `None`. -/
def coercePair (vh va : Value) : Option PyFloat × Option PyFloat :=
  match pyFloatOpt vh with
  | Except.error _ => (Option.none, Option.none)
  | Except.ok h =>
    match pyFloatOpt va with
    | Except.error _ => (Option.none, Option.none)
    | Except.ok a => (h, a)

/-- Whether `needle` occurs as a contiguous subsequence of `hay`. -/
def listContainsSeq (needle : List Char) : List Char → Bool
  | [] => needle.isEmpty
  | c :: t => needle.isPrefixOf (c :: t) || listContainsSeq needle t

/-- Substring test backing Python's `needle in hay` on strings. -/
def strContains (hay needle : String) : Bool :=
  listContainsSeq needle.toList hay.toList

/-- Python `needle in v`: substring test on strings, element equality on
lists, key membership on dicts; on any non-container (`None`, numbers,
booleans) Python raises `TypeError`. -/
def pyContains (needle : String) (v : Value) : Except PyErr Bool :=
  match v with
  | Value.str s => Except.ok (strContains s needle)
  | Value.list xs =>
    Except.ok (xs.any fun x =>
      match x with
      | Value.str s => s == needle
      | _ => false)
  | Value.dict kvs => Except.ok (kvs.any fun kv => kv.1 == needle)
  | _ => Except.error PyErr.typeError

/-- Short-circuiting Python `or` over two boolean computations that may
raise. -/
def pyOr (a b : Except PyErr Bool) : Except PyErr Bool :=
  match a with
  | Except.error e => Except.error e
  | Except.ok true => Except.ok true
  | Except.ok false => b

/-- Model of Python `str(v)` as used in the f-string event labels.
Lists and dicts render as full reprs in Python; no claim inspects those
cases, so they are abbreviated here. -/
def pyStr : Value → String
  | Value.none => "None"
  | Value.bool true => "True"
  | Value.bool false => "False"
  | Value.num q => toString q
  | Value.str s => s
  | Value.list _ => "<list>"
  | Value.dict _ => "<dict>"

/-- Round-half-to-even on rationals (Python's `round` tie rule). -/
def roundHalfEvenQ (q : ℚ) : ℤ :=
  let n := ⌊q⌋
  if q - n < 1/2 then n
  else if 1/2 < q - n then n + 1
  else if n % 2 = 0 then n else n + 1

/-- Python `round(q, 3)` on the rational carrier. -/
def round3Q (q : ℚ) : ℚ :=
  (roundHalfEvenQ (q * 1000) : ℚ) / 1000

/-- Round-half-to-even on reals. -/
noncomputable def roundHalfEvenR (x : ℝ) : ℤ :=
  let n := ⌊x⌋
  if x - n < 1/2 then n
  else if 1/2 < x - n then n + 1
  else if n % 2 = 0 then n else n + 1

/-- Python `round(x, 3)` on the real carrier (used for confidences, which
pass through the transcendental value score). -/
noncomputable def round3R (x : ℝ) : ℝ :=
  (roundHalfEvenR (x * 1000) : ℝ) / 1000

/-- Render a count of hundredths as a two-decimal literal. -/
def fmt2Int (n : ℤ) : String :=
  let frac := n.natAbs % 100
  (if n < 0 then "-" else "") ++ toString (n.natAbs / 100) ++ "." ++
    (if frac < 10 then "0" else "") ++ toString frac

/-- Model of the f-string `:.2f` rendering of a value score. -/
noncomputable def fmt2 (x : ℝ) : String :=
  fmt2Int (roundHalfEvenR (x * 100))

/-- The expected value per unit stake inside `value_score`
(src/main.py line 128): `ev = prob * (odds - 1) - (1 - prob)`. -/
def evR (p : ℝ) (o : ℚ) : ℝ :=
  p * ((o : ℝ) - 1) - (1 - p)

/-- Embedding of `value_score` (src/main.py lines 125-129): `0.0` when
the odds are absent, falsy, or at most 1 (falsy `0` is subsumed by
`o ≤ 1`), otherwise the logistic squash `1 / (1 + exp(-ev * 4))`. -/
noncomputable def value_score (prob : ℝ) (odds : Option ℚ) : ℝ :=
  match odds with
  | Option.none => 0
  | some o => if o ≤ 1 then 0 else 1 / (1 + Real.exp (-(evR prob o) * 4))

/-- The raw weight a side contributes in `compute_moneyline_probs` over
Python floats: `1/odds` for truthy odds `> 1.0`. An infinite odds value
is truthy and `> 1.0` and contributes the weight `1.0/inf = 0.0`;
`-inf` and `nan` fail the `> 1.0` test and contribute nothing. -/
def pyWeight : Option PyFloat → Option ℚ
  | some (PyFloat.fin q) => if 1 < q then some (1 / q) else Option.none
  | some PyFloat.inf => some 0
  | some PyFloat.ninf => Option.none
  | some PyFloat.nan => Option.none
  | Option.none => Option.none

/-- `compute_moneyline_probs` (src/main.py lines 108-122) over Python
floats, as invoked by the builder: when the present weights sum to zero
(every usable side has infinite odds) the normalization `v / s` is
Python's `0.0 / 0.0`, which raises `ZeroDivisionError`; otherwise it is
the rational computation of `compute_moneyline_probs`, which is the
restriction of this function to finite odds (`compute_probs_py_fin`). -/
def compute_moneyline_probs_py (oh oa : Option PyFloat) : Except PyErr (ℚ × ℚ) :=
  match pyWeight oh, pyWeight oa with
  | some h, some a =>
    if h + a = 0 then Except.error PyErr.zeroDivisionError
    else Except.ok (h / (h + a), a / (h + a))
  | some h, Option.none =>
    if h = 0 then Except.error PyErr.zeroDivisionError
    else Except.ok (h / h, 1 - h / h)
  | Option.none, some a =>
    if a = 0 then Except.error PyErr.zeroDivisionError
    else Except.ok (1 - a / a, a / a)
  | Option.none, Option.none => Except.ok (1/2, 1/2)

/-- `value_score` over Python floats, as invoked by the builder: `-inf`
fails the `> 1.0` test (score 0.0), `+inf` drives the logistic to
exactly 1.0, and finite odds delegate to `value_score`. A `nan` odds
value propagates NaN through the score in Python; NaN has no
representative in the real carrier, so it is mapped to 0 here — it can
neither raise nor change the number of candidates, which is all the
claims state about non-finite inputs. -/
noncomputable def value_score_py (prob : ℝ) (odds : Option PyFloat) : ℝ :=
  match odds with
  | some (PyFloat.fin q) => value_score prob (some q)
  | some PyFloat.inf => 1
  | some PyFloat.ninf => 0
  | some PyFloat.nan => 0
  | Option.none => 0

/-- The finite part of a coerced odds value, used for the candidate's
rational `odds` field; non-finite odds (which the C4 hypotheses exclude
from the scored paths) have no representative in the carrier. -/
def finOdds : Option PyFloat → Option ℚ
  | some (PyFloat.fin q) => some q
  | _ => Option.none

/-- One scored betting recommendation, mirroring the candidate dicts of
`build_event_candidates`. -/
structure Candidate where
  sport : String
  market : String
  pick : String
  event : String
  league : Value
  start : Value
  odds : Option ℚ
  prob : ℚ
  confidence : ℝ
  rationale : String

/-- The coerced odds pair of a raw event: the two `safe_get` extractions
at the fixed bookmaker path (identical in all three sport arms,
src/main.py lines 141-147, 179-185, 216-222) followed by the coercion
`try` block. -/
def rawOddsPair (v : Value) : Option PyFloat × Option PyFloat :=
  coercePair
    (safe_get v [PathStep.key "odds", PathStep.key "bookmakers", PathStep.idx 0, PathStep.key "bets", PathStep.idx 0, PathStep.key "values", PathStep.idx 0, PathStep.key "odd"] Value.none)
    (safe_get v [PathStep.key "odds", PathStep.key "bookmakers", PathStep.idx 0, PathStep.key "bets", PathStep.idx 0, PathStep.key "values", PathStep.idx 1, PathStep.key "odd"] Value.none)

/-- The football arm of `build_event_candidates` (src/main.py lines
136-171) for a single raw event. Two steps can raise: the moneyline
normalization (`ZeroDivisionError` when every usable side has infinite
odds, line 117) and the league containment test
(`'Serie' in league or 'Premier' in league`, line 151), in that order. -/
noncomputable def buildFootball (fx : Value) : Except PyErr Candidate :=
  let league := safe_get fx [PathStep.key "league", PathStep.key "name"] (Value.str "")
  let home := safe_get fx [PathStep.key "teams", PathStep.key "home", PathStep.key "name"] (Value.str "Home")
  let away := safe_get fx [PathStep.key "teams", PathStep.key "away", PathStep.key "name"] (Value.str "Away")
  let fixture_time := safe_get fx [PathStep.key "fixture", PathStep.key "date"] Value.none
  let oddsPair := rawOddsPair fx
  let odds_home := oddsPair.1
  let odds_away := oddsPair.2
  match compute_moneyline_probs_py odds_home odds_away with
  | Except.error e => Except.error e
  | Except.ok probs =>
    let home_form : ℚ := 1/2
    let away_form : ℚ := 1/2
    match pyOr (pyContains "Serie" league) (pyContains "Premier" league) with
    | Except.error e => Except.error e
    | Except.ok top =>
      let league_weight : ℚ := if top then 11/20 else 1/2
      let p_home := 6/10 * probs.1 + 3/10 * home_form + 1/10 * league_weight
      let p_away := 6/10 * probs.2 + 3/10 * away_form + 1/10 * (1 - league_weight)
      let vh := value_score_py (p_home : ℝ) odds_home
      let va := value_score_py (p_away : ℝ) odds_away
      if va ≤ vh then
        Except.ok
          { sport := "football", market := "1X2", pick := "1",
            event := pyStr home ++ " vs " ++ pyStr away, league := league,
            start := fixture_time, odds := finOdds odds_home, prob := round3Q p_home,
            confidence := round3R ((1/2 : ℝ) * (p_home : ℝ) + (1/2 : ℝ) * vh),
            rationale := "Probabilità implicita e contesto favorevoli a " ++ pyStr home ++ ". Value=" ++ fmt2 vh }
      else
        Except.ok
          { sport := "football", market := "1X2", pick := "2",
            event := pyStr home ++ " vs " ++ pyStr away, league := league,
            start := fixture_time, odds := finOdds odds_away, prob := round3Q p_away,
            confidence := round3R ((1/2 : ℝ) * (p_away : ℝ) + (1/2 : ℝ) * va),
            rationale := "Probabilità/quote migliori su " ++ pyStr away ++ ". Value=" ++ fmt2 va }

/-- The basketball arm of `build_event_candidates` (src/main.py lines
174-208); it has no containment test, so only the moneyline
normalization can raise. -/
noncomputable def buildBasketball (bx : Value) : Except PyErr Candidate :=
  let league := safe_get bx [PathStep.key "league", PathStep.key "name"] (Value.str "")
  let home := safe_get bx [PathStep.key "teams", PathStep.key "home", PathStep.key "name"] (Value.str "Home")
  let away := safe_get bx [PathStep.key "teams", PathStep.key "away", PathStep.key "name"] (Value.str "Away")
  let t1 := safe_get bx [PathStep.key "date"] Value.none
  let game_time := if pyTruthy t1 then t1 else safe_get bx [PathStep.key "game", PathStep.key "date"] Value.none
  let oddsPair := rawOddsPair bx
  let odds_home := oddsPair.1
  let odds_away := oddsPair.2
  match compute_moneyline_probs_py odds_home odds_away with
  | Except.error e => Except.error e
  | Except.ok probs =>
    let home_form : ℚ := 1/2
    let away_form : ℚ := 1/2
    let league_weight : ℚ := 1/2
    let p_home := 6/10 * probs.1 + 3/10 * home_form + 1/10 * league_weight
    let p_away := 6/10 * probs.2 + 3/10 * away_form + 1/10 * (1 - league_weight)
    let vh := value_score_py (p_home : ℝ) odds_home
    let va := value_score_py (p_away : ℝ) odds_away
    if va ≤ vh then
      Except.ok
        { sport := "basketball", market := "ML", pick := "Home",
          event := pyStr home ++ " vs " ++ pyStr away, league := league,
          start := game_time, odds := finOdds odds_home, prob := round3Q p_home,
          confidence := round3R ((1/2 : ℝ) * (p_home : ℝ) + (1/2 : ℝ) * vh),
          rationale := "Moneyline favorevole a " ++ pyStr home ++ ". Value=" ++ fmt2 vh }
    else
      Except.ok
        { sport := "basketball", market := "ML", pick := "Away",
          event := pyStr home ++ " vs " ++ pyStr away, league := league,
          start := game_time, odds := finOdds odds_away, prob := round3Q p_away,
          confidence := round3R ((1/2 : ℝ) * (p_away : ℝ) + (1/2 : ℝ) * va),
          rationale := "Moneyline favorevole a " ++ pyStr away ++ ". Value=" ++ fmt2 va }

/-- The volleyball arm of `build_event_candidates` (src/main.py lines
211-245); like basketball, only the moneyline normalization can raise. -/
noncomputable def buildVolleyball (vx : Value) : Except PyErr Candidate :=
  let league := safe_get vx [PathStep.key "league", PathStep.key "name"] (Value.str "")
  let home := safe_get vx [PathStep.key "teams", PathStep.key "home", PathStep.key "name"] (Value.str "Home")
  let away := safe_get vx [PathStep.key "teams", PathStep.key "away", PathStep.key "name"] (Value.str "Away")
  let game_time := safe_get vx [PathStep.key "date"] Value.none
  let oddsPair := rawOddsPair vx
  let odds_home := oddsPair.1
  let odds_away := oddsPair.2
  match compute_moneyline_probs_py odds_home odds_away with
  | Except.error e => Except.error e
  | Except.ok probs =>
    let home_form : ℚ := 1/2
    let away_form : ℚ := 1/2
    let league_weight : ℚ := 1/2
    let p_home := 6/10 * probs.1 + 3/10 * home_form + 1/10 * league_weight
    let p_away := 6/10 * probs.2 + 3/10 * away_form + 1/10 * (1 - league_weight)
    let vh := value_score_py (p_home : ℝ) odds_home
    let va := value_score_py (p_away : ℝ) odds_away
    if va ≤ vh then
      Except.ok
        { sport := "volleyball", market := "ML", pick := "Home",
          event := pyStr home ++ " vs " ++ pyStr away, league := league,
          start := game_time, odds := finOdds odds_home, prob := round3Q p_home,
          confidence := round3R ((1/2 : ℝ) * (p_home : ℝ) + (1/2 : ℝ) * vh),
          rationale := "Favorita squadra di casa. Value=" ++ fmt2 vh }
    else
      Except.ok
        { sport := "volleyball", market := "ML", pick := "Away",
          event := pyStr home ++ " vs " ++ pyStr away, league := league,
          start := game_time, odds := finOdds odds_away, prob := round3Q p_away,
          confidence := round3R ((1/2 : ℝ) * (p_away : ℝ) + (1/2 : ℝ) * va),
          rationale := "Favorita squadra ospite. Value=" ++ fmt2 va }

/-- The per-sport raw event lists consumed by `build_event_candidates`
(tennis is fetched but has no candidate-building arm). -/
structure Dati where
  football : List Value
  basketball : List Value
  volleyball : List Value

/-- Left-to-right effectful map over a list: the first raised error
aborts the whole traversal, as a Python exception aborts the loop. -/
def traverseE {α β : Type} (f : α → Except PyErr β) : List α → Except PyErr (List β)
  | [] => Except.ok []
  | x :: xs =>
    match f x with
    | Except.error e => Except.error e
    | Except.ok y =>
      match traverseE f xs with
      | Except.error e => Except.error e
      | Except.ok ys => Except.ok (y :: ys)

/-- Embedding of `build_event_candidates` (src/main.py lines 132-247):
the three sport loops run in order, appending one candidate per event;
an exception anywhere aborts the function. -/
noncomputable def build_event_candidates (dati : Dati) : Except PyErr (List Candidate) :=
  match traverseE buildFootball dati.football with
  | Except.error e => Except.error e
  | Except.ok fc =>
    match traverseE buildBasketball dati.basketball with
    | Except.error e => Except.error e
    | Except.ok bc =>
      match traverseE buildVolleyball dati.volleyball with
      | Except.error e => Except.error e
      | Except.ok vc => Except.ok (fc ++ bc ++ vc)

/-- The per-candidate confidence adjustment of `analisi_dati`
(src/main.py lines 269-276): `odds = c.get('odds') or 0`; a penalty of
0.1 for truthy odds below 1.3, 0.05 for truthy odds above 5.0; the new
confidence is `round(max(0.0, confidence - penalty), 3)`. -/
noncomputable def adjust (c : Candidate) : Candidate :=
  let odds : ℚ := c.odds.getD 0
  let penalty : ℚ :=
    if odds ≠ 0 ∧ odds < 13/10 then 1/10
    else if odds ≠ 0 ∧ 5 < odds then 1/20
    else 0
  { c with confidence := round3R (max 0 (c.confidence - (penalty : ℝ))) }

/-- Embedding of `analisi_dati` (src/main.py lines 266-277), restricted
to its `predizioni` payload (the dict also carries a count and a
timestamp, which no claim touches). -/
noncomputable def analisi_dati (dati : Dati) : Except PyErr (List Candidate) :=
  (build_event_candidates dati).map fun cs => cs.map adjust

/-- Number of candidates of a given sport in a list. -/
def countSport (s : String) (l : List Candidate) : ℕ :=
  (l.filter fun c => c.sport == s).length

/-- The greedy walk of `seleziona_giocate` (src/main.py lines 286-293):
skip a candidate when its sport already has 2 admitted and fewer than 3
are admitted overall; otherwise admit it, and stop at exactly 3. -/
def selLoop : List Candidate → List Candidate → (String → ℕ) → List Candidate
  | [], result, _ => result
  | p :: rest, result, counts =>
    if 2 ≤ counts p.sport ∧ result.length < 3 then
      selLoop rest result counts
    else if (result ++ [p]).length = 3 then result ++ [p]
    else selLoop rest (result ++ [p])
      (fun s => if s = p.sport then counts p.sport + 1 else counts s)

/-- The stable descending-confidence sort of `seleziona_giocate`
(src/main.py line 283). Insertion sort with `b.confidence ≤ a.confidence`
is stable for equal keys, like Python's `list.sort`. -/
noncomputable def sortPreds (l : List Candidate) : List Candidate :=
  List.insertionSort (fun a b => b.confidence ≤ a.confidence) l

/-- Embedding of `seleziona_giocate` (src/main.py lines 280-294) on the
`predizioni` list. -/
noncomputable def seleziona_giocate (preds : List Candidate) : List Candidate :=
  selLoop (sortPreds preds) [] (fun _ => 0)

/-- Project the picks out of a builder result (used to state concrete
builder facts without binders). -/
def picksOf (r : Except PyErr (List Candidate)) : Except PyErr (List String) :=
  r.map fun cs => cs.map Candidate.pick

/-- A concrete candidate used to exercise the selector's per-sport cap
(three copies of it form an all-football input). -/
noncomputable def selSample : Candidate :=
  { sport := "football", market := "1X2", pick := "1", event := "A vs B",
    league := Value.str "", start := Value.none, odds := some 2,
    prob := 1/2, confidence := (1/2 : ℝ), rationale := "r" }

/-- The raw football event of the `Inter vs Milan` scenario: league
`"Serie A"`, home odds 1.8, away odds 4.5, in the nested bookmaker
shape the extractor expects. -/
def interEvent : Value :=
  Value.dict [
    ("league", Value.dict [("name", Value.str "Serie A")]),
    ("teams", Value.dict [
      ("home", Value.dict [("name", Value.str "Inter")]),
      ("away", Value.dict [("name", Value.str "Milan")])]),
    ("fixture", Value.dict [("date", Value.str "2026-10-12")]),
    ("odds", Value.dict [("bookmakers", Value.list [
      Value.dict [("bets", Value.list [
        Value.dict [("values", Value.list [
          Value.dict [("odd", Value.num (9/5))],
          Value.dict [("odd", Value.num (9/2))]])]])]])])]

/-- A concrete candidate with present low odds, used to exercise the
confidence adjuster. -/
noncomputable def c7sample : Candidate :=
  { sport := "football", market := "1X2", pick := "1", event := "A vs B",
    league := Value.str "", start := Value.none, odds := some (6/5),
    prob := 1/2, confidence := (7/10 : ℝ), rationale := "r" }

/-- A concrete candidate with absent odds, used to exercise the
no-penalty path of the adjuster. -/
noncomputable def c10sample : Candidate :=
  { sport := "football", market := "1X2", pick := "1", event := "A vs B",
    league := Value.str "", start := Value.none, odds := Option.none,
    prob := 1/2, confidence := (1/4 : ℝ), rationale := "r" }

/-- A concrete candidate with negative (hence truthy) odds. -/
noncomputable def c10neg : Candidate :=
  { sport := "football", market := "1X2", pick := "1", event := "A vs B",
    league := Value.str "", start := Value.none, odds := some (-2),
    prob := 1/2, confidence := (1/2 : ℝ), rationale := "r" }

end AutoBet

namespace AutoBet

/-- `safe_get` refines the clean path resolution: it returns the resolved
value when every step matches and the default otherwise. -/
theorem safe_get_eq_getPath (d : Value) (path : List PathStep) (default : Value) :
    safe_get d path default = (getPath d path).getD default := by
  induction path generalizing d with
  | nil => rfl
  | cons step rest ih =>
    cases step with
    | idx i =>
      cases d with
      | list xs =>
        simp only [safe_get, getPath]
        by_cases h : 0 ≤ i ∧ i < (xs.length : ℤ)
        · simp only [if_pos h]
          cases xs.get? i.toNat with
          | none => rfl
          | some v => exact ih v
        · simp only [if_neg h]; rfl
      | none => rfl
      | bool b => rfl
      | num q => rfl
      | str s => rfl
      | dict kvs => rfl
    | key k =>
      cases d with
      | dict kvs =>
        simp only [safe_get, getPath]
        cases kvs.lookup k with
        | none => rfl
        | some v => exact ih v
      | none => rfl
      | bool b => rfl
      | num q => rfl
      | str s => rfl
      | list xs => rfl

/-- `oddsWeight` on valid odds. -/
theorem oddsWeight_pos {v : ℚ} (h : 1 < v) : oddsWeight (some v) = some (1 / v) := by
  simp [oddsWeight, h]

/-- `oddsWeight` on invalid odds. -/
theorem oddsWeight_invalid {v : ℚ} (h : ¬ 1 < v) : oddsWeight (some v) = Option.none := by
  simp [oddsWeight, h]

/-- Evaluation of the estimator when both sides have weights. -/
theorem compute_probs_both (oh oa : Option ℚ) {h a : ℚ}
    (hh : oddsWeight oh = some h) (ha : oddsWeight oa = some a) :
    compute_moneyline_probs oh oa = (h / (h + a), a / (h + a)) := by
  unfold compute_moneyline_probs
  rw [hh, ha]

/-- Evaluation of the estimator when only the home side has a weight. -/
theorem compute_probs_home (oh oa : Option ℚ) {h : ℚ}
    (hh : oddsWeight oh = some h) (ha : oddsWeight oa = Option.none) :
    compute_moneyline_probs oh oa = (h / h, 1 - h / h) := by
  unfold compute_moneyline_probs
  rw [hh, ha]

/-- Evaluation of the estimator when only the away side has a weight. -/
theorem compute_probs_away (oh oa : Option ℚ) {a : ℚ}
    (hh : oddsWeight oh = Option.none) (ha : oddsWeight oa = some a) :
    compute_moneyline_probs oh oa = (1 - a / a, a / a) := by
  unfold compute_moneyline_probs
  rw [hh, ha]

/-- Evaluation of the estimator when neither side has a weight. -/
theorem compute_probs_neither (oh oa : Option ℚ)
    (hh : oddsWeight oh = Option.none) (ha : oddsWeight oa = Option.none) :
    compute_moneyline_probs oh oa = (1/2, 1/2) := by
  unfold compute_moneyline_probs
  rw [hh, ha]

/-- An unusable odds input (absent, or present but not `> 1.0`)
contributes no weight. -/
theorem oddsWeight_unusable {x : Option ℚ} (h : usable x = false) :
    oddsWeight x = Option.none := by
  cases x with
  | none => rfl
  | some v =>
    simp only [usable, decide_eq_false_iff_not] at h
    exact oddsWeight_invalid h

/-- Evaluation of the Python-float moneyline step when both sides carry
weights. -/
theorem compute_py_both {oh oa : Option PyFloat} {h a : ℚ}
    (hh : pyWeight oh = some h) (ha : pyWeight oa = some a) :
    compute_moneyline_probs_py oh oa =
      if h + a = 0 then Except.error PyErr.zeroDivisionError
      else Except.ok (h / (h + a), a / (h + a)) := by
  unfold compute_moneyline_probs_py
  rw [hh, ha]

/-- Evaluation of the Python-float moneyline step with only a home
weight. -/
theorem compute_py_home {oh oa : Option PyFloat} {h : ℚ}
    (hh : pyWeight oh = some h) (ha : pyWeight oa = Option.none) :
    compute_moneyline_probs_py oh oa =
      if h = 0 then Except.error PyErr.zeroDivisionError
      else Except.ok (h / h, 1 - h / h) := by
  unfold compute_moneyline_probs_py
  rw [hh, ha]

/-- Evaluation of the Python-float moneyline step with only an away
weight. -/
theorem compute_py_away {oh oa : Option PyFloat} {a : ℚ}
    (hh : pyWeight oh = Option.none) (ha : pyWeight oa = some a) :
    compute_moneyline_probs_py oh oa =
      if a = 0 then Except.error PyErr.zeroDivisionError
      else Except.ok (1 - a / a, a / a) := by
  unfold compute_moneyline_probs_py
  rw [hh, ha]

/-- Evaluation of the Python-float moneyline step with no weights. -/
theorem compute_py_neither {oh oa : Option PyFloat}
    (hh : pyWeight oh = Option.none) (ha : pyWeight oa = Option.none) :
    compute_moneyline_probs_py oh oa = Except.ok (1/2, 1/2) := by
  unfold compute_moneyline_probs_py
  rw [hh, ha]

/-- A weight produced by the finite estimator is strictly positive. -/
theorem oddsWeight_pos_of_some {x : Option ℚ} {h : ℚ}
    (hw : oddsWeight x = some h) : 0 < h := by
  cases x with
  | none => exact absurd hw (by simp [oddsWeight])
  | some v =>
    simp only [oddsWeight] at hw
    split_ifs at hw with h1
    injection hw with hq
    subst hq
    exact one_div_pos.mpr (lt_trans zero_lt_one h1)

/-- `compute_moneyline_probs` is exactly the restriction of the
Python-float moneyline step to finite odds: finite weights are strictly
positive, so the division-by-zero branch is unreachable there. -/
theorem compute_probs_py_fin (oh oa : Option ℚ) :
    compute_moneyline_probs_py (oh.map PyFloat.fin) (oa.map PyFloat.fin) =
      Except.ok (compute_moneyline_probs oh oa) := by
  have hmap : ∀ x : Option ℚ, pyWeight (x.map PyFloat.fin) = oddsWeight x := by
    intro x
    cases x <;> rfl
  cases hwh : oddsWeight oh with
  | none =>
    cases hwa : oddsWeight oa with
    | none =>
      rw [compute_py_neither (by rw [hmap]; exact hwh) (by rw [hmap]; exact hwa),
          compute_probs_neither oh oa hwh hwa]
    | some a =>
      have ha := oddsWeight_pos_of_some hwa
      rw [compute_py_away (by rw [hmap]; exact hwh) (by rw [hmap]; exact hwa),
          if_neg (ne_of_gt ha), compute_probs_away oh oa hwh hwa]
  | some h =>
    have hp := oddsWeight_pos_of_some hwh
    cases hwa : oddsWeight oa with
    | none =>
      rw [compute_py_home (by rw [hmap]; exact hwh) (by rw [hmap]; exact hwa),
          if_neg (ne_of_gt hp), compute_probs_home oh oa hwh hwa]
    | some a =>
      have ha := oddsWeight_pos_of_some hwa
      rw [compute_py_both (by rw [hmap]; exact hwh) (by rw [hmap]; exact hwa),
          if_neg (ne_of_gt (by linarith)), compute_probs_both oh oa hwh hwa]

/-- The logistic squash is strictly monotone in the expected value. -/
theorem value_score_lt_of_ev_lt {p1 p2 : ℝ} {o1 o2 : ℚ} (h1 : 1 < o1) (h2 : 1 < o2)
    (hev : evR p1 o1 < evR p2 o2) :
    value_score p1 (some o1) < value_score p2 (some o2) := by
  have hn1 : ¬ (o1 ≤ 1) := not_le.mpr h1
  have hn2 : ¬ (o2 ≤ 1) := not_le.mpr h2
  simp only [value_score, if_neg hn1, if_neg hn2]
  have e2 : (0:ℝ) < 1 + Real.exp (-(evR p2 o2) * 4) := by positivity
  have hlt : 1 + Real.exp (-(evR p2 o2) * 4) < 1 + Real.exp (-(evR p1 o1) * 4) := by
    have := Real.exp_lt_exp.mpr (show -(evR p2 o2) * 4 < -(evR p1 o1) * 4 by nlinarith)
    linarith
  exact one_div_lt_one_div_of_lt e2 hlt

/-- Half-even rounding of a nonnegative real is nonnegative. -/
theorem roundHalfEvenR_nonneg {x : ℝ} (hx : 0 ≤ x) : 0 ≤ roundHalfEvenR x := by
  have h0 : (0:ℤ) ≤ ⌊x⌋ := Int.le_floor.mpr (by exact_mod_cast hx)
  unfold roundHalfEvenR
  dsimp only
  split_ifs <;> omega

/-- The 3-decimal rounding of a nonnegative real is nonnegative. -/
theorem round3R_nonneg {x : ℝ} (hx : 0 ≤ x) : 0 ≤ round3R x := by
  unfold round3R
  have h := roundHalfEvenR_nonneg (x := x * 1000) (by nlinarith)
  exact div_nonneg (by exact_mod_cast h) (by norm_num)

/-- Half-even rounding is the identity on integers. -/
theorem roundHalfEvenR_intCast (n : ℤ) : roundHalfEvenR ((n : ℝ)) = n := by
  unfold roundHalfEvenR
  norm_num [Int.floor_intCast]

/-- Evaluation rule for `round3R` at an exact multiple of 1/1000. -/
theorem round3R_eq_of_mul (x : ℝ) (n : ℤ) (h : x * 1000 = (n : ℝ)) :
    round3R x = (n : ℝ) / 1000 := by
  unfold round3R
  rw [h, roundHalfEvenR_intCast]

/-- C1 (counterexample): the claim predicts probabilities `{0.5, 0.5}`
for single-sided home odds 2.0, but `compute_moneyline_probs` first
normalizes the lone weight by its own sum, yielding `{1.0, 0.0}`. -/
theorem C1_counterexample :
    compute_moneyline_probs (some 2) Option.none = (1, 0) ∧
    compute_moneyline_probs (some 2) Option.none ≠ (1/2, 1/2) := by
  have hw : oddsWeight (some (2:ℚ)) = some (1/2) := oddsWeight_pos (by norm_num)
  have h := compute_probs_home (some 2) Option.none hw rfl
  rw [h]
  norm_num [Prod.ext_iff]

/-- C1 (amended): whenever exactly one side has valid decimal odds
`> 1.0` — the other side absent, or present but invalid (not `> 1.0`) —
the side with odds receives probability 1 (its raw weight `1/odds`
divided by the sum of present weights, which is that weight itself) and
the other side the complement 0. -/
theorem C1_amended (o : ℚ) (ho : 1 < o) (other : Option ℚ)
    (hother : usable other = false) :
    compute_moneyline_probs (some o) other = (1, 0) ∧
    compute_moneyline_probs other (some o) = (0, 1) := by
  have hne : (1:ℚ)/o ≠ 0 := one_div_ne_zero (by linarith)
  have hw : oddsWeight (some o) = some (1/o) := oddsWeight_pos ho
  have hwo : oddsWeight other = Option.none := oddsWeight_unusable hother
  rw [compute_probs_home (some o) other hw hwo,
      compute_probs_away other (some o) hwo hw, div_self hne]
  norm_num

/-- C1 (witness): the amended statement evaluated at valid odds 2.0
against a present-but-invalid other side with odds 1.0. -/
theorem C1_witness :
    ((1:ℚ) < 2 ∧ usable (some (1:ℚ)) = false) ∧
    compute_moneyline_probs (some 2) (some 1) = (1, 0) ∧
    compute_moneyline_probs (some 1) (some 2) = (0, 1) :=
  ⟨⟨by norm_num, by decide⟩, C1_amended 2 (by norm_num) (some 1) (by decide)⟩

/-- C6: the implied probabilities are always in [0,1] and sum exactly to
1; with no usable odds on either side the uniform prior `{0.5, 0.5}` is
returned, and equal valid odds also give exactly `{0.5, 0.5}`. -/
theorem C6_prob_invariants (oh oa : Option ℚ) :
    (0 ≤ (compute_moneyline_probs oh oa).1 ∧ (compute_moneyline_probs oh oa).1 ≤ 1 ∧
     0 ≤ (compute_moneyline_probs oh oa).2 ∧ (compute_moneyline_probs oh oa).2 ≤ 1 ∧
     (compute_moneyline_probs oh oa).1 + (compute_moneyline_probs oh oa).2 = 1) ∧
    (usable oh = false → usable oa = false →
      compute_moneyline_probs oh oa = (1/2, 1/2)) ∧
    (oh = oa → usable oh = true → compute_moneyline_probs oh oa = (1/2, 1/2)) := by
  rcases oh with _ | vh <;> rcases oa with _ | va
  · have hval := compute_probs_neither Option.none Option.none rfl rfl
    refine ⟨by rw [hval]; norm_num, fun _ _ => hval, ?_⟩
    intro _ h
    simp [usable] at h
  · by_cases hva : 1 < va
    · have hne : (1:ℚ)/va ≠ 0 := one_div_ne_zero (by linarith)
      have hval : compute_moneyline_probs Option.none (some va) = (0, 1) := by
        rw [compute_probs_away Option.none (some va) rfl (oddsWeight_pos hva),
            div_self hne]
        norm_num
      refine ⟨by rw [hval]; norm_num, ?_, ?_⟩
      · intro _ h
        simp [usable, hva] at h
      · intro h
        exact absurd h (by simp)
    · have hval := compute_probs_neither Option.none (some va) rfl (oddsWeight_invalid hva)
      refine ⟨by rw [hval]; norm_num, fun _ _ => hval, ?_⟩
      intro h
      exact absurd h (by simp)
  · by_cases hvh : 1 < vh
    · have hne : (1:ℚ)/vh ≠ 0 := one_div_ne_zero (by linarith)
      have hval : compute_moneyline_probs (some vh) Option.none = (1, 0) := by
        rw [compute_probs_home (some vh) Option.none (oddsWeight_pos hvh) rfl,
            div_self hne]
        norm_num
      refine ⟨by rw [hval]; norm_num, ?_, ?_⟩
      · intro h _
        simp [usable, hvh] at h
      · intro h
        exact absurd h (by simp)
    · have hval := compute_probs_neither (some vh) Option.none (oddsWeight_invalid hvh) rfl
      refine ⟨by rw [hval]; norm_num, fun _ _ => hval, ?_⟩
      intro _ h
      simp [usable, hvh] at h
  · by_cases hvh : 1 < vh <;> by_cases hva : 1 < va
    · have hh : (0:ℚ) < 1/vh := by positivity
      have ha : (0:ℚ) < 1/va := by positivity
      have hs : (0:ℚ) < 1/vh + 1/va := by positivity
      have hval := compute_probs_both (some vh) (some va)
        (oddsWeight_pos hvh) (oddsWeight_pos hva)
      refine ⟨?_, ?_, ?_⟩
      · rw [hval]
        refine ⟨by positivity, ?_, by positivity, ?_, ?_⟩
        · rw [div_le_one hs]; linarith
        · rw [div_le_one hs]; linarith
        · rw [div_add_div_same, div_self (ne_of_gt hs)]
      · intro h _
        simp [usable, hvh] at h
      · intro heq _
        have hveq : vh = va := by injection heq
        subst hveq
        rw [hval]
        have hx : (1:ℚ)/vh / (1/vh + 1/vh) = 1/2 := by
          rw [div_eq_iff (ne_of_gt hs)]; ring
        rw [hx]
    · have hne : (1:ℚ)/vh ≠ 0 := one_div_ne_zero (by linarith)
      have hval : compute_moneyline_probs (some vh) (some va) = (1, 0) := by
        rw [compute_probs_home (some vh) (some va)
              (oddsWeight_pos hvh) (oddsWeight_invalid hva), div_self hne]
        norm_num
      refine ⟨by rw [hval]; norm_num, ?_, ?_⟩
      · intro h _
        simp [usable, hvh] at h
      · intro heq _
        have hveq : vh = va := by injection heq
        exact absurd (hveq ▸ hvh) hva
    · have hne : (1:ℚ)/va ≠ 0 := one_div_ne_zero (by linarith)
      have hval : compute_moneyline_probs (some vh) (some va) = (0, 1) := by
        rw [compute_probs_away (some vh) (some va)
              (oddsWeight_invalid hvh) (oddsWeight_pos hva), div_self hne]
        norm_num
      refine ⟨by rw [hval]; norm_num, ?_, ?_⟩
      · intro _ h
        simp [usable, hva] at h
      · intro heq h
        simp [usable, hvh] at h
    · have hval := compute_probs_neither (some vh) (some va)
        (oddsWeight_invalid hvh) (oddsWeight_invalid hva)
      refine ⟨by rw [hval]; norm_num, fun _ _ => hval, fun _ _ => hval⟩

/-- C6 (witness): equal valid odds 3.0/3.0 give exactly `{0.5, 0.5}`,
and the two probabilities sum to 1. -/
theorem C6_witness :
    ((some (3:ℚ)) = (some (3:ℚ)) ∧ usable (some (3:ℚ)) = true) ∧
    compute_moneyline_probs (some 3) (some 3) = (1/2, 1/2) :=
  ⟨⟨rfl, by decide⟩, (C6_prob_invariants (some 3) (some 3)).2.2 rfl (by decide)⟩

/-- C8: the value score is exactly 0 for absent or ≤ 1 odds, and for
odds > 1 it is the logistic `1 / (1 + e^(-4·ev))`, strictly between 0 and
1, equal to exactly 0.5 when the expected value is 0. -/
theorem C8_value_score (p : ℝ) (o : ℚ) (_hp0 : 0 ≤ p) (_hp1 : p ≤ 1) :
    value_score p Option.none = 0 ∧
    (o ≤ 1 → value_score p (some o) = 0) ∧
    (1 < o →
      value_score p (some o) = 1 / (1 + Real.exp (-(evR p o) * 4)) ∧
      0 < value_score p (some o) ∧ value_score p (some o) < 1 ∧
      (evR p o = 0 → value_score p (some o) = 1/2)) := by
  refine ⟨rfl, ?_, ?_⟩
  · intro h
    simp [value_score, h]
  · intro h
    have hni : ¬ (o ≤ 1) := not_le.mpr h
    have hform : value_score p (some o) = 1 / (1 + Real.exp (-(evR p o) * 4)) := by
      simp [value_score, hni]
    have hexp := Real.exp_pos (-(evR p o) * 4)
    refine ⟨hform, ?_, ?_, ?_⟩
    · rw [hform]; positivity
    · rw [hform, div_lt_one (by linarith)]; linarith
    · intro hev
      rw [hform, hev]
      norm_num [Real.exp_zero]

/-- C8 (witness): the value-score facts evaluated at p = 0.5 and
odds 2.0. -/
theorem C8_witness :
    ((0:ℝ) ≤ 1/2 ∧ (1/2:ℝ) ≤ 1) ∧
    (value_score (1/2) Option.none = 0 ∧
     ((2:ℚ) ≤ 1 → value_score (1/2) (some 2) = 0) ∧
     (1 < (2:ℚ) →
       value_score (1/2) (some 2) = 1 / (1 + Real.exp (-(evR (1/2) 2) * 4)) ∧
       0 < value_score (1/2) (some 2) ∧ value_score (1/2) (some 2) < 1 ∧
       (evR (1/2) 2 = 0 → value_score (1/2) (some 2) = 1/2))) :=
  ⟨⟨by norm_num, by norm_num⟩, C8_value_score (1/2) 2 (by norm_num) (by norm_num)⟩

/-- C9: for fixed odds > 1.0 the value score is strictly increasing in
the probability. -/
theorem C9_value_monotone (o : ℚ) (ho : 1 < o) (p1 p2 : ℝ)
    (_hp0 : 0 ≤ p1) (hlt : p1 < p2) (_hp1 : p2 ≤ 1) :
    value_score p1 (some o) < value_score p2 (some o) := by
  apply value_score_lt_of_ev_lt ho ho
  unfold evR
  have hoc : (1:ℝ) < (o:ℝ) := by exact_mod_cast ho
  nlinarith

/-- C9 (witness): monotonicity evaluated at p₁ = 0.25 < p₂ = 0.75 with
odds 2.0. -/
theorem C9_witness :
    ((1:ℚ) < 2 ∧ (0:ℝ) ≤ 1/4 ∧ (1/4:ℝ) < 3/4 ∧ (3/4:ℝ) ≤ 1) ∧
    value_score (1/4) (some 2) < value_score (3/4) (some 2) :=
  ⟨⟨by norm_num, by norm_num, by norm_num, by norm_num⟩,
   C9_value_monotone 2 (by norm_num) (1/4) (3/4) (by norm_num) (by norm_num) (by norm_num)⟩

/-- C7: the adjuster subtracts 0.10 for present nonzero odds below 1.3
and 0.05 for odds above 5.0, applies no penalty on [1.3, 5.0] (the
boundary values included, by strictness of the comparisons), floors at 0
before rounding to 3 decimals, and never yields a negative confidence.
The odds-absent/odds-zero corner is covered separately by C10. -/
theorem C7_adjuster (c : Candidate) (o : ℚ) :
    (c.odds = some o → o ≠ 0 → o < 13/10 →
      (adjust c).confidence = round3R (max 0 (c.confidence - (1/10 : ℝ)))) ∧
    (c.odds = some o → o ≠ 0 → 5 < o →
      (adjust c).confidence = round3R (max 0 (c.confidence - (1/20 : ℝ)))) ∧
    (c.odds = some o → 13/10 ≤ o → o ≤ 5 →
      (adjust c).confidence = round3R (max 0 c.confidence)) ∧
    0 ≤ (adjust c).confidence := by
  refine ⟨?_, ?_, ?_, ?_⟩
  · intro ho hne hlt
    simp only [adjust, ho, Option.getD_some]
    rw [if_pos ⟨hne, hlt⟩]
    norm_num
  · intro ho hne hgt
    simp only [adjust, ho, Option.getD_some]
    rw [if_neg (by rintro ⟨_, h⟩; linarith), if_pos ⟨hne, hgt⟩]
    norm_num
  · intro ho hge hle
    simp only [adjust, ho, Option.getD_some]
    rw [if_neg (by rintro ⟨_, h⟩; linarith), if_neg (by rintro ⟨_, h⟩; linarith)]
    norm_num
  · simp only [adjust]
    exact round3R_nonneg (le_max_left 0 _)

/-- C7 (witness): the low-odds penalty and the nonnegativity evaluated on
a concrete candidate with odds 1.2 and confidence 0.7. -/
theorem C7_witness :
    (c7sample.odds = some (6/5) ∧ (6/5 : ℚ) ≠ 0 ∧ (6/5 : ℚ) < 13/10) ∧
    (adjust c7sample).confidence = round3R (max 0 (c7sample.confidence - (1/10 : ℝ))) ∧
    0 ≤ (adjust c7sample).confidence :=
  ⟨⟨rfl, by norm_num, by norm_num⟩,
   (C7_adjuster c7sample (6/5)).1 rfl (by norm_num) (by norm_num),
   (C7_adjuster c7sample (6/5)).2.2.2⟩

/-- C10 (counterexample): the claim that only a strictly positive odds
value can trigger a penalty fails — odds −2.0 is truthy and below 1.3,
so the 0.10 penalty applies and the confidence is not merely
re-rounded. -/
theorem C10_counterexample :
    (adjust c10neg).confidence ≠ round3R c10neg.confidence := by
  have h1 : (adjust c10neg).confidence = round3R ((2:ℝ)/5) := by
    simp only [adjust, c10neg, Option.getD_some]
    rw [if_pos ⟨by norm_num, by norm_num⟩]
    norm_num
  have h2 : round3R ((2:ℝ)/5) = ((400:ℤ) : ℝ) / 1000 :=
    round3R_eq_of_mul _ _ (by norm_num)
  have h3 : round3R c10neg.confidence = ((500:ℤ) : ℝ) / 1000 := by
    have : c10neg.confidence = (1/2 : ℝ) := rfl
    rw [this]
    exact round3R_eq_of_mul _ _ (by norm_num)
  rw [h1, h2, h3]
  norm_num

/-- C10 (amended): for an absent or zero odds value the adjuster applies
no penalty — the confidence is only floored (a no-op for the nonnegative
confidences the builder produces) and re-rounded; any penalty requires a
truthy (nonzero) odds value, though not necessarily a positive one. -/
theorem C10_amended (c : Candidate) (h0 : 0 ≤ c.confidence)
    (h : c.odds = Option.none ∨ c.odds = some 0) :
    (adjust c).confidence = round3R c.confidence := by
  have hodds : c.odds.getD 0 = 0 := by
    rcases h with h | h <;> simp [h]
  simp only [adjust, hodds]
  rw [if_neg (by rintro ⟨hne, _⟩; exact hne rfl),
      if_neg (by rintro ⟨hne, _⟩; exact hne rfl)]
  norm_num [max_eq_right h0]

/-- C10 (witness): the amended statement evaluated on a concrete
candidate with absent odds and confidence 0.25. -/
theorem C10_witness :
    (0 ≤ c10sample.confidence ∧
      (c10sample.odds = Option.none ∨ c10sample.odds = some 0)) ∧
    (adjust c10sample).confidence = round3R c10sample.confidence :=
  ⟨⟨by norm_num [c10sample], Or.inl rfl⟩,
   C10_amended c10sample (by norm_num [c10sample]) (Or.inl rfl)⟩

/-- Appending one candidate extends a sport count by 0 or 1. -/
theorem countSport_append (s : String) (l : List Candidate) (p : Candidate) :
    countSport s (l ++ [p]) = countSport s l + (if p.sport = s then 1 else 0) := by
  by_cases h : p.sport = s <;> simp [countSport, List.filter_append, h]

/-- Invariant of the greedy selection walk: starting below the output
bound with counts that track the accumulated result and respect the
per-sport cap, the walk never exceeds 3 admitted candidates nor 2 per
sport. -/
theorem selLoop_bounds (preds : List Candidate) :
    ∀ (result : List Candidate) (counts : String → ℕ),
      result.length < 3 →
      (∀ s, counts s = countSport s result) →
      (∀ s, counts s ≤ 2) →
      (selLoop preds result counts).length ≤ 3 ∧
      ∀ s, countSport s (selLoop preds result counts) ≤ 2 := by
  induction preds with
  | nil =>
    intro result counts hlen hc hcap
    refine ⟨by simpa [selLoop] using le_of_lt hlen, fun s => ?_⟩
    simpa [selLoop, hc s] using hc s ▸ hcap s
  | cons p rest ih =>
    intro result counts hlen hc hcap
    rw [selLoop]
    by_cases hskip : 2 ≤ counts p.sport ∧ result.length < 3
    · rw [if_pos hskip]
      exact ih result counts hlen hc hcap
    · rw [if_neg hskip]
      have hclt : counts p.sport < 2 := by
        rcases not_and_or.mp hskip with h | h
        · exact lt_of_not_le h
        · exact absurd hlen h
      have hc' : ∀ s, (if s = p.sport then counts p.sport + 1 else counts s) =
          countSport s (result ++ [p]) := by
        intro s
        rw [countSport_append, ← hc s]
        by_cases hsp : s = p.sport
        · subst hsp
          simp
        · have hps : ¬ p.sport = s := fun hh => hsp hh.symm
          simp [hsp, hps]
      have hcap2 : ∀ s, (if s = p.sport then counts p.sport + 1 else counts s) ≤ 2 := by
        intro s
        by_cases hsp : s = p.sport
        · rw [if_pos hsp]
          omega
        · rw [if_neg hsp]
          exact hcap s
      by_cases hdone : (result ++ [p]).length = 3
      · rw [if_pos hdone]
        exact ⟨le_of_eq hdone, fun s => (hc' s) ▸ hcap2 s⟩
      · rw [if_neg hdone]
        refine ih (result ++ [p]) _ ?_ hc' hcap2
        have hl : (result ++ [p]).length = result.length + 1 := by simp
        omega

/-- C2 (counterexample): the claim predicts that with three candidates of
one sport the selector waives the per-sport cap and returns 3; the
reference walk instead skips the third same-sport candidate (the waiver
condition `len(result) < 3` is always true before the loop breaks), so
only 2 are returned. -/
theorem C2_counterexample :
    (seleziona_giocate [selSample, selSample, selSample]).length = 2 ∧
    (seleziona_giocate [selSample, selSample, selSample]).length ≠ 3 := by
  have hsort : sortPreds [selSample, selSample, selSample] =
      [selSample, selSample, selSample] := by
    apply List.Sorted.insertionSort_eq
    simp [List.sorted_cons]
  unfold seleziona_giocate
  rw [hsort]
  norm_num [selLoop, selSample]

/-- C2 (amended): the selector returns at most 3 candidates and at most
2 per sport, unconditionally — the cap is never waived, because the walk
stops the moment 3 candidates are admitted, so the waiver's
`3 ≤ len(result)` condition is unreachable. -/
theorem C2_amended (preds : List Candidate) :
    (seleziona_giocate preds).length ≤ 3 ∧
    ∀ s, countSport s (seleziona_giocate preds) ≤ 2 := by
  unfold seleziona_giocate
  exact selLoop_bounds (sortPreds preds) [] (fun _ => 0) (by norm_num)
    (fun s => by simp [countSport]) (fun s => by norm_num)

/-- On the Inter-Milan event the builder picks the away side: the blended
away probability 513/1400 at odds 4.5 has a larger expected value
(1817/2800) than the home side's (983/7000), so the away value score
wins and the candidate carries pick `"2"`, probability 0.366 and a
rationale naming Milan. -/
theorem buildFootball_inter_props :
    ∃ c, buildFootball interEvent = Except.ok c ∧ c.pick = "2" ∧ c.prob = 0.366 ∧
      ∃ s t : String, c.rationale = s ++ ("Milan" ++ t) := by
  have h1 : rawOddsPair interEvent =
      (some (PyFloat.fin (9/5)), some (PyFloat.fin (9/2))) := by
    simp only [rawOddsPair]
    rw [show safe_get interEvent [PathStep.key "odds", PathStep.key "bookmakers", PathStep.idx 0, PathStep.key "bets", PathStep.idx 0, PathStep.key "values", PathStep.idx 0, PathStep.key "odd"] Value.none = Value.num (9/5) from rfl,
        show safe_get interEvent [PathStep.key "odds", PathStep.key "bookmakers", PathStep.idx 0, PathStep.key "bets", PathStep.idx 0, PathStep.key "values", PathStep.idx 1, PathStep.key "odd"] Value.none = Value.num (9/2) from rfl]
    norm_num [coercePair, pyFloatOpt, pyTruthy, overflowBound]
  have hw1 : pyWeight (some (PyFloat.fin ((9:ℚ)/5))) = some (5/9) := by
    norm_num [pyWeight]
  have hw2 : pyWeight (some (PyFloat.fin ((9:ℚ)/2))) = some (2/9) := by
    norm_num [pyWeight]
  have h2 : compute_moneyline_probs_py (some (PyFloat.fin ((9:ℚ)/5)))
      (some (PyFloat.fin ((9:ℚ)/2))) = Except.ok (5/7, 2/7) := by
    rw [compute_py_both hw1 hw2, if_neg (by norm_num)]
    norm_num
  have h3 : pyOr (pyContains "Serie" (Value.str "Serie A"))
      (pyContains "Premier" (Value.str "Serie A")) = Except.ok true := by
    norm_num [pyOr, pyContains, strContains, listContainsSeq]
  have hlt : value_score ((887:ℝ)/1400) (some ((9:ℚ)/5)) <
      value_score ((513:ℝ)/1400) (some ((9:ℚ)/2)) := by
    apply value_score_lt_of_ev_lt (by norm_num) (by norm_num)
    unfold evR
    push_cast
    norm_num
  simp only [buildFootball]
  rw [show safe_get interEvent [PathStep.key "league", PathStep.key "name"] (Value.str "") = Value.str "Serie A" from rfl,
      show safe_get interEvent [PathStep.key "teams", PathStep.key "home", PathStep.key "name"] (Value.str "Home") = Value.str "Inter" from rfl,
      show safe_get interEvent [PathStep.key "teams", PathStep.key "away", PathStep.key "name"] (Value.str "Away") = Value.str "Milan" from rfl,
      show safe_get interEvent [PathStep.key "fixture", PathStep.key "date"] Value.none = Value.str "2026-10-12" from rfl,
      h1, h3]
  norm_num [h2, value_score_py, finOdds, pyStr, round3Q, roundHalfEvenQ, Int.floor_eq_iff]
  simp only [if_neg (not_le.mpr hlt)]
  exact ⟨_, rfl, rfl, by norm_num, "Probabilità/quote migliori su ", ". Value=" ++
    fmt2 (value_score ((513:ℝ)/1400) (some ((9:ℚ)/2))), rfl⟩

/-- C3 (counterexample): on the Inter-Milan scenario the claim predicts
pick `"1"`, but the builder emits pick `"2"` — the away side's value
score exceeds the home side's. -/
theorem C3_counterexample :
    picksOf (build_event_candidates ⟨[interEvent], [], []⟩) = Except.ok ["2"] ∧
    (Except.ok ["2"] : Except PyErr (List String)) ≠ Except.ok ["1"] := by
  obtain ⟨c, hc, hpick, _, _⟩ := buildFootball_inter_props
  constructor
  · unfold build_event_candidates
    simp only [traverseE]
    rw [hc]
    simp [picksOf, Except.map, hpick]
  · simp

/-- C3 (amended): on the Inter-Milan scenario (home odds 1.8, away odds
4.5, league `"Serie A"`) the builder emits one candidate with pick `"2"`
(the away side — the claim's 0.5556 "implied prob" is the raw weight
before normalization; after normalization p_home = 887/1400 ≈ 0.634 and
the away side has the higher value score), probability 0.366 rounded to
3 decimals, and a rationale mentioning `Milan`. -/
theorem C3_amended :
    ∃ c : Candidate, build_event_candidates ⟨[interEvent], [], []⟩ = Except.ok [c] ∧
      c.pick = "2" ∧ c.prob = 0.366 ∧
      ∃ s t : String, c.rationale = s ++ ("Milan" ++ t) := by
  obtain ⟨c, hc, hpick, hprob, hrat⟩ := buildFootball_inter_props
  refine ⟨c, ?_, hpick, hprob, hrat⟩
  unfold build_event_candidates
  simp only [traverseE]
  rw [hc]
  simp

end AutoBet
